import Mathlib

/-!
Shallow embedding of the chat-backend drafts of this repository.

Sources:
- `src/worker.js`, first draft (routes `/api/register`, `/api/login`,
  `/api/active`, `/api/send`, `/api/messages` GET, `/api/users`, `/api/rooms`,
  helper `getRoomKey`);
- `src/worker.js`, second draft (route `/api/auth`, presence key `status:`);
- `src/unnamed/part_000` (routes `/api/send` and `/api/get-messages`, the
  cursor-based incremental fetch).

JavaScript strings are modelled as Lean `String` (lists of characters);
`Date.now()` as a `Nat` of milliseconds; the ISO calendar day
`new Date(t).toISOString().split('T')[0]` is injectively determined by
`t / 86400000`, so day-partitions are keyed by that number.  The KV store is
modelled as total maps per key family (exactly the key families the code
uses: `user:`, `active:`/`status:`, `messages:<room>:<day>`, `room:<id>`),
with `Option` for absence; a missing message partition reads as `[]`, which
is what `(await get(dayKey, 'json')) || []` does.  The nondeterministic
random id suffix `Math.random().toString(36).substr(2, 9)` is passed in as
an explicit `rand` argument.
-/

/-- JS code-unit comparison on character lists, as used by the default
`Array.prototype.sort` comparator on strings. -/
def jsLeChars : List Char → List Char → Bool
  | [], _ => true
  | _ :: _, [] => false
  | a :: as, b :: bs => if a < b then true else if b < a then false else jsLeChars as bs

/-- JS string comparison `a <= b` (lexicographic on code units). -/
def jsLe (s t : String) : Bool := jsLeChars s.data t.data

/-- Result of `[user1, user2].sort()` on a two-element array (stable). -/
def sortPair (u1 u2 : String) : List String := if jsLe u1 u2 then [u1, u2] else [u2, u1]

/-- Translation of `getRoomKey` (src/worker.js lines 283-285):
`[user1, user2].sort().join('_')`. -/
def getRoomKey (user1 user2 : String) : String :=
  if jsLe user1 user2 then user1 ++ "_" ++ user2 else user2 ++ "_" ++ user1

/-- Translation of the private room id of src/unnamed/part_000 lines 121-124:
`private:` followed by the sorted pair joined with an underscore. -/
def privateRoomId (f t : String) : String :=
  "private:" ++ (if jsLe f t then f ++ "_" ++ t else t ++ "_" ++ f)

/-- Character class of the username regex `[a-zA-Z0-9_-]`
(src/worker.js line 31). -/
def isUserChar (c : Char) : Bool := c.isAlpha || c.isDigit || c = '_' || c = '-'

/-- Translation of the username validation `/^[a-zA-Z0-9_-]{2,20}$/.test(username)`
(src/worker.js line 31). -/
def validUsername (u : String) : Bool :=
  2 ≤ u.data.length && u.data.length ≤ 20 && u.data.all isUserChar

/-- JS `array.slice(-n)` for `n > 0`: the last `n` elements. -/
def sliceLast (n : Nat) (l : List α) : List α := l.drop (l.length - n)

/-- JS `roomId || 'public'`: an absent or empty string falls back to the default. -/
def orDefault (o : Option String) (d : String) : String :=
  match o with
  | some s => if s = "" then d else s
  | none => d

/-- JS `to || null`: an absent or empty string becomes null. -/
def orNull (o : Option String) : Option String :=
  match o with
  | some s => if s = "" then none else some s
  | none => none

/-- Stored user record (src/worker.js lines 47-51). -/
structure UserData where
  password : String
  created : Nat
  lastActive : Nat
deriving DecidableEq

/-- The `lastMessage` summary of a room record (src/worker.js lines 148-152);
the JS field `from` is spelled `from_` because `from` is a Lean keyword. -/
structure LastMessage where
  content : String
  time : Nat
  from_ : String
deriving DecidableEq

/-- A private room record (src/worker.js lines 145-154). -/
structure RoomInfo where
  id : String
  participants : List String
  lastMessage : LastMessage
  created : Nat
deriving DecidableEq

/-- A chat message (src/worker.js lines 115-122). -/
structure Message where
  id : String
  from_ : String
  to_ : Option String
  roomId : String
  message : String
  time : Nat
deriving DecidableEq

/-- The KV store, split by the key families the code uses:
`user:<name>`, `active:<name>` (value paired with its TTL in seconds),
`messages:<roomId>:<day>` (absent partition reads as `[]`), `room:<key>`. -/
structure Store where
  users : String → Option UserData
  active : String → Option (String × Nat)
  messages : String → Nat → List Message
  rooms : String → Option RoomInfo

/-- Point update of an `Option`-valued key family. -/
def putKey (f : String → Option α) (k : String) (v : Option α) : String → Option α :=
  fun x => if x = k then v else f x

/-- Point update of the message-partition family. -/
def putMsgs (f : String → Nat → List Message) (k : String) (d : Nat) (v : List Message) :
    String → Nat → List Message :=
  fun x y => if x = k ∧ y = d then v else f x y

/-- The empty store. -/
def emptyStore : Store :=
  { users := fun _ => none, active := fun _ => none
    messages := fun _ _ => [], rooms := fun _ => none }

/-- Day number of a millisecond timestamp; two timestamps map to the same
ISO calendar day exactly when they map to the same day number. -/
def dayOf (t : Nat) : Nat := t / 86400000

/-- Translation of src/worker.js lines 128-135: push the new message onto
the existing partition, then keep `slice(-2000)`. -/
def appendTrim (existingMessages : List Message) (newMessage : Message) : List Message :=
  sliceLast 2000 (existingMessages ++ [newMessage])

/-- The new message object of src/worker.js lines 115-122. -/
def mkMessage (f m : String) (toParam roomId : Option String) (now : Nat) (rand : String) : Message :=
  { id := f ++ "_" ++ toString now ++ "_" ++ rand
    from_ := f
    to_ := orNull toParam
    roomId := orDefault roomId "public"
    message := m.take 1000
    time := now }

/-- Translation of the room upsert of src/worker.js lines 142-164: build the
fresh record with `created := now`, then overwrite `created` from the existing
record when one is present, keeping `lastMessage` as the fresh value. -/
def upsertRoom (existingRoom : Option RoomInfo) (f t m : String) (now : Nat) : RoomInfo :=
  let roomInfo : RoomInfo :=
    { id := getRoomKey f t
      participants := sortPair f t
      lastMessage := { content := m.take 50, time := now, from_ := f }
      created := now }
  match existingRoom with
  | some existing => { roomInfo with created := existing.created }
  | none => roomInfo

/-- Response of the `/api/send` route. -/
inductive SendResult where
  | ok (messageId : String)
  | err (status : Nat) (msg : String)
deriving DecidableEq

/-- Request body of `/api/send` (src/worker.js line 97); absent JSON fields
are `none`, and the code's truthiness tests also treat `""` as absent. -/
structure SendReq where
  from_ : Option String
  message : Option String
  to_ : Option String
  roomId : Option String

/-- Translation of the `/api/send` handler of src/worker.js (first draft,
lines 96-168): validate `from`/`message`, reject when the sender's
`active:` presence key is absent (403), refresh the presence key with TTL
300, append the message to the `(roomId || 'public', day)` partition
trimmed to the last 2000 entries, and on a private send (`to` truthy and
distinct from `from`) upsert the room record under `getRoomKey`. -/
def sendHandler (store : Store) (now : Nat) (rand : String) (req : SendReq) :
    Store × SendResult :=
  match req.from_, req.message with
  | some f, some m =>
    if f = "" ∨ m = "" then (store, .err 400 "发件人和消息内容不能为空")
    else
      match store.active f with
      | none => (store, .err 403 "用户未登录")
      | some _ =>
        let store1 : Store := { store with active := putKey store.active f (some (toString now, 300)) }
        let newMessage := mkMessage f m req.to_ req.roomId now rand
        let messageKey := orDefault req.roomId "public"
        let day := dayOf now
        let existingMessages := store1.messages messageKey day
        let trimmedMessages := appendTrim existingMessages newMessage
        let store2 : Store := { store1 with messages := putMsgs store1.messages messageKey day trimmedMessages }
        let store3 : Store :=
          match orNull req.to_ with
          | some t =>
            if t ≠ f then
              let roomKey := getRoomKey f t
              let roomInfo := upsertRoom (store2.rooms roomKey) f t m now
              { store2 with rooms := putKey store2.rooms roomKey (some roomInfo) }
            else store2
          | none => store2
        (store3, .ok newMessage.id)
  | _, _ => (store, .err 400 "发件人和消息内容不能为空")

/-- Response of the `/api/login` route. -/
inductive LoginResult where
  | ok
  | err (status : Nat) (msg : String)
deriving DecidableEq

/-- Translation of the `/api/login` handler of src/worker.js (first draft,
lines 58-77): look the user up, compare the stored password, update
`lastActive` on the user record.  Note that it writes only the `user:` key. -/
def loginHandler (store : Store) (now : Nat) (username password : Option String) :
    Store × LoginResult :=
  match username, password with
  | some u, some p =>
    if u = "" ∨ p = "" then (store, .err 400 "用户名和密码不能为空")
    else
      match store.users u with
      | none => (store, .err 401 "用户名或密码错误")
      | some userData =>
        if userData.password = p then
          let userData2 : UserData := { userData with lastActive := now }
          ({ store with users := putKey store.users u (some userData2) }, .ok)
        else (store, .err 401 "用户名或密码错误")
  | _, _ => (store, .err 400 "用户名和密码不能为空")

/-- Translation of the 7-day window read of src/worker.js lines 187-194:
the concatenation of the partitions for `now - i*86400000`, `i = 0..6`. -/
def windowMessages (store : Store) (now : Nat) (roomId : String) : List Message :=
  (List.range 7).flatMap fun i => store.messages roomId (dayOf (now - i * 86400000))

/-- Boolean form of the comparator `(a, b) => a.time - b.time`. -/
def timeLe (a b : Message) : Bool := a.time ≤ b.time

/-- Translation of src/worker.js lines 187-202: concatenate the last 7
day-partitions, sort stably by `time` ascending, return `slice(-200)`. -/
def fetchWindow (store : Store) (now : Nat) (roomId : String) : List Message :=
  sliceLast 200 ((windowMessages store now roomId).mergeSort timeLe)

/-- Translation of the `/api/messages` GET handler of src/worker.js (first
draft, lines 171-203): require a `user` parameter, and for a non-public room
require an existing room record whose participants include the caller,
otherwise 403; then return the sorted, truncated 7-day window. -/
def getMessagesHandler (store : Store) (now : Nat) (userParam roomIdParam : Option String) :
    Except (Nat × String) (List Message) :=
  let roomId := orDefault roomIdParam "public"
  match orNull userParam with
  | none => .error (400, "用户未指定")
  | some currentUser =>
    if roomId ≠ "public" then
      match store.rooms roomId with
      | none => .error (403, "无权访问该房间")
      | some roomInfo =>
        if currentUser ∈ roomInfo.participants then .ok (fetchWindow store now roomId)
        else .error (403, "无权访问该房间")
    else .ok (fetchWindow store now roomId)

/-- Translation of the per-room body of the `/api/get-messages` loop of
src/unnamed/part_000 lines 156-171: read today's partition; when a truthy
`lastId` is supplied and found by `findIndex`, return everything strictly
after it, otherwise the whole partition. -/
def incrementalFor (existingMessages : List Message) (lastId : Option String) : List Message :=
  match orNull lastId with
  | some l =>
    match existingMessages.findIdx? (fun msg => msg.id = l) with
    | some lastIndex => existingMessages.drop (lastIndex + 1)
    | none => existingMessages
  | none => existingMessages

/-- Translation of the `/api/get-messages` handler of src/unnamed/part_000
lines 152-175: for each requested room id, read today's partition and apply
the per-room cursor.  The handler receives no caller identity and performs
no membership check. -/
def getMessagesIncremental (store : Store) (now : Nat) (roomIds : List String)
    (lastIds : String → Option String) : List (String × List Message) :=
  roomIds.map fun roomId =>
    (roomId, incrementalFor (store.messages roomId (dayOf now)) (lastIds roomId))

/-- Store of the second draft of src/worker.js: `user:` keys hold the hashed
password, `status:` keys are the presence family (value with TTL). -/
structure Store2 where
  users : String → Option String
  status : String → Option (String × Nat)

/-- Response of the second draft's `/api/auth` route. -/
inductive AuthResult where
  | okLogin
  | okRegister
  | errEmpty
  | errCreds
  | errFormat
deriving DecidableEq

/-- Translation of the `/api/auth` handler of src/worker.js (second draft,
lines 321-345).  `hashPassword` uses SHA-256 via WebCrypto and is abstracted
as the function argument `hash`; `verifyPassword` compares `hash password`
with the stored hash.  On successful login or registration the handler
writes `status:<username> = 'online'` with TTL 300. -/
def authHandler (hash : String → String) (store : Store2) (username password : Option String) :
    Store2 × AuthResult :=
  match username, password with
  | some u, some p =>
    if u = "" ∨ p = "" then (store, .errEmpty)
    else
      match store.users u with
      | some storedHash =>
        if hash p = storedHash then
          ({ store with status := putKey store.status u (some ("online", 300)) }, .okLogin)
        else (store, .errCreds)
      | none =>
        if validUsername u then
          ({ users := putKey store.users u (some (hash p)),
             status := putKey store.status u (some ("online", 300)) }, .okRegister)
        else (store, .errFormat)
  | _, _ => (store, .errEmpty)

/-! Helper lemmas about `sliceLast` and `appendTrim`. -/

theorem sliceLast_length_le (n : Nat) (l : List α) : (sliceLast n l).length ≤ n := by
  simp only [sliceLast, List.length_drop]
  omega

theorem sliceLast_suffix (n : Nat) (l : List α) : List.IsSuffix (sliceLast n l) l :=
  List.drop_suffix _ _

theorem isSuffix_append_right {l1 l2 : List α} (h : List.IsSuffix l1 l2) (l : List α) :
    List.IsSuffix (l1 ++ l) (l2 ++ l) := by
  obtain ⟨t, ht⟩ := h
  exact ⟨t, by rw [← List.append_assoc, ht]⟩

theorem appendTrim_length_le (part : List Message) (m : Message) :
    (appendTrim part m).length ≤ 2000 :=
  sliceLast_length_le _ _

theorem foldl_appendTrim_length_le (ms : List Message) :
    ∀ part : List Message, part.length ≤ 2000 →
      (ms.foldl appendTrim part).length ≤ 2000 := by
  induction ms with
  | nil => intro part h; simpa using h
  | cons m rest ih =>
    intro part _
    simpa using ih (appendTrim part m) (appendTrim_length_le part m)

theorem foldl_appendTrim_suffix (ms : List Message) :
    ∀ part : List Message, List.IsSuffix (ms.foldl appendTrim part) (part ++ ms) := by
  induction ms with
  | nil => intro part; simp
  | cons m rest ih =>
    intro part
    have h1 : List.IsSuffix (rest.foldl appendTrim (appendTrim part m)) (appendTrim part m ++ rest) :=
      ih (appendTrim part m)
    have h2 : List.IsSuffix (appendTrim part m) (part ++ [m]) := sliceLast_suffix _ _
    have h3 : List.IsSuffix (appendTrim part m ++ rest) ((part ++ [m]) ++ rest) :=
      isSuffix_append_right h2 rest
    have h4 := h1.trans h3
    simpa [List.append_assoc] using h4

/-- C1: starting from the empty partition, any sequence of appends (each one
pushing the new message and keeping `slice(-2000)`, src/worker.js lines
128-135) leaves the partition with at most 2000 messages, and its content is
a contiguous suffix of the full append history (oldest evicted first). -/
theorem append_partition_bounded_suffix (ms : List Message) :
    (ms.foldl appendTrim []).length ≤ 2000 ∧
    List.IsSuffix (ms.foldl appendTrim []) ms := by
  refine ⟨foldl_appendTrim_length_le ms [] (by simp), ?_⟩
  simpa using foldl_appendTrim_suffix ms []

/-! Helper lemmas about the JS string comparison. -/

theorem jsLeChars_total : ∀ a b : List Char, jsLeChars a b = false → jsLeChars b a = true := by
  intro a
  induction a with
  | nil => intro b h; simp [jsLeChars] at h
  | cons x xs ih =>
    intro b h
    cases b with
    | nil => simp [jsLeChars]
    | cons y ys =>
      simp only [jsLeChars] at h ⊢
      by_cases hxy : x < y
      · simp [hxy] at h
      · by_cases hyx : y < x
        · simp [hyx, lt_asymm hyx]
        · simp [hxy, hyx] at h ⊢
          exact ih ys h

theorem jsLeChars_antisymm : ∀ a b : List Char,
    jsLeChars a b = true → jsLeChars b a = true → a = b := by
  intro a
  induction a with
  | nil =>
    intro b _ hba
    cases b with
    | nil => rfl
    | cons y ys => simp [jsLeChars] at hba
  | cons x xs ih =>
    intro b hab hba
    cases b with
    | nil => simp [jsLeChars] at hab
    | cons y ys =>
      simp only [jsLeChars] at hab hba
      by_cases hxy : x < y
      · simp [hxy, lt_asymm hxy] at hba
      · by_cases hyx : y < x
        · simp [hyx] at hab
          exact absurd hab hxy
        · have hx : x = y := le_antisymm (not_lt.mp hyx) (not_lt.mp hxy)
          subst hx
          simp [hxy, hyx] at hab hba
          rw [ih ys hab hba]

theorem jsLe_total (s t : String) (h : jsLe s t = false) : jsLe t s = true :=
  jsLeChars_total _ _ h

theorem jsLe_antisymm (s t : String) (hst : jsLe s t = true) (hts : jsLe t s = true) : s = t := by
  apply String.ext
  exact jsLeChars_antisymm _ _ hst hts

/-- C7: the derived room id is symmetric in its two arguments, both for
`getRoomKey` of src/worker.js and for the `private:` room id of
src/unnamed/part_000; it is a pure total function, so this equation states
its determinism and symmetry. -/
theorem canonicalRoomId_symmetric (u1 u2 : String) :
    getRoomKey u1 u2 = getRoomKey u2 u1 ∧ privateRoomId u1 u2 = privateRoomId u2 u1 := by
  constructor
  · unfold getRoomKey
    by_cases h12 : jsLe u1 u2 = true
    · by_cases h21 : jsLe u2 u1 = true
      · rw [jsLe_antisymm u1 u2 h12 h21]
      · simp [h12, h21]
    · have h21 := jsLe_total u1 u2 (by simpa using h12)
      simp [h12, h21]
  · unfold privateRoomId
    by_cases h12 : jsLe u1 u2 = true
    · by_cases h21 : jsLe u2 u1 = true
      · rw [jsLe_antisymm u1 u2 h12 h21]
      · simp [h12, h21]
    · have h21 := jsLe_total u1 u2 (by simpa using h12)
      simp [h12, h21]

/-! Injectivity of the underscore join, for components free of underscores. -/

theorem sepSplit_unique : ∀ l1 m1 l2 m2 : List Char,
    '_' ∉ l1 → '_' ∉ m1 → l1 ++ '_' :: l2 = m1 ++ '_' :: m2 → l1 = m1 ∧ l2 = m2 := by
  intro l1
  induction l1 with
  | nil =>
    intro m1 l2 m2 _ hm1 heq
    cases m1 with
    | nil =>
      simp only [List.nil_append, List.cons.injEq] at heq
      exact ⟨rfl, heq.2⟩
    | cons y ys =>
      simp only [List.nil_append, List.cons_append, List.cons.injEq] at heq
      exact absurd (heq.1 ▸ List.mem_cons_self y ys) hm1
  | cons x xs ih =>
    intro m1 l2 m2 hl1 hm1 heq
    cases m1 with
    | nil =>
      simp only [List.cons_append, List.nil_append, List.cons.injEq] at heq
      exact absurd (heq.1 ▸ List.mem_cons_self x xs) hl1
    | cons y ys =>
      simp only [List.cons_append, List.cons.injEq] at heq
      obtain ⟨hxy, htail⟩ := heq
      obtain ⟨h1, h2⟩ := ih ys l2 m2 (fun hmem => hl1 (List.mem_cons_of_mem x hmem))
        (fun hmem => hm1 (List.mem_cons_of_mem y hmem)) htail
      exact ⟨by rw [hxy, h1], h2⟩

theorem joinSep_inj (a b c d : String) (ha : '_' ∉ a.data) (hc : '_' ∉ c.data)
    (h : a ++ "_" ++ b = c ++ "_" ++ d) : a = c ∧ b = d := by
  have hsep : ("_" : String).data = ['_'] := rfl
  have hdata : a.data ++ '_' :: b.data = c.data ++ '_' :: d.data := by
    have h2 := congrArg String.data h
    simpa [String.data_append, hsep] using h2
  obtain ⟨h1, h2⟩ := sepSplit_unique a.data c.data b.data d.data ha hc hdata
  exact ⟨String.ext h1, String.ext h2⟩

/-- C6 counterexample: the join delimiter of `getRoomKey` is the underscore,
which the username regex `[a-zA-Z0-9_-]{2,20}` does permit, so two different
unordered pairs of valid, distinct usernames can map to the same room id:
`getRoomKey "aa" "bb_cc" = "aa_bb_cc" = getRoomKey "aa_bb" "cc"`. -/
theorem roomKey_not_injective_counterexample :
    validUsername "aa" = true ∧ validUsername "bb_cc" = true ∧
    validUsername "aa_bb" = true ∧ validUsername "cc" = true ∧
    "aa" ≠ "bb_cc" ∧ "aa_bb" ≠ "cc" ∧
    getRoomKey "aa" "bb_cc" = getRoomKey "aa_bb" "cc" ∧
    ¬(("aa" = "aa_bb" ∧ "bb_cc" = "cc") ∨ ("aa" = "cc" ∧ "bb_cc" = "aa_bb")) ∧
    isUserChar '_' = true := by decide

/-- C6 amended: for usernames that do not contain the underscore delimiter,
the derived room id does determine the unordered participant pair: equal
`getRoomKey` values force equal pairs. -/
theorem roomKey_injective_of_no_underscore (a b c d : String)
    (ha : '_' ∉ a.data) (hb : '_' ∉ b.data) (hc : '_' ∉ c.data) (hd : '_' ∉ d.data)
    (h : getRoomKey a b = getRoomKey c d) :
    (a = c ∧ b = d) ∨ (a = d ∧ b = c) := by
  unfold getRoomKey at h
  by_cases hab : jsLe a b = true <;> by_cases hcd : jsLe c d = true <;>
    simp only [hab, hcd, if_true, if_false, Bool.not_eq_true] at h
  · exact Or.inl (joinSep_inj a b c d ha hc h)
  · have h2 := joinSep_inj a b d c ha hd h
    exact Or.inr h2
  · have h2 := joinSep_inj b a c d hb hc h
    exact Or.inr ⟨h2.2, h2.1⟩
  · have h2 := joinSep_inj b a d c hb hd h
    exact Or.inl ⟨h2.2, h2.1⟩

/-- C6 amended witness: a concrete instantiation of the injectivity theorem
at underscore-free usernames. -/
theorem roomKey_injective_of_no_underscore_witness :
    '_' ∉ ("aa" : String).data ∧
    ((("aa" : String) = "aa" ∧ ("bb" : String) = "bb") ∨
      (("aa" : String) = "bb" ∧ ("bb" : String) = "aa")) :=
  ⟨by decide, roomKey_injective_of_no_underscore "aa" "bb" "aa" "bb"
    (by decide) (by decide) (by decide) (by decide) rfl⟩

/-! Helper lemmas about the incremental cursor scan. -/

theorem incrementalFor_not_found (ms : List Message) (c : String) (hc : c ≠ "")
    (hmem : c ∉ ms.map Message.id) : incrementalFor ms (some c) = ms := by
  have hnone : ms.findIdx? (fun msg => msg.id = c) = none := by
    rw [List.findIdx?_eq_none_iff]
    intro x hx
    simp only [decide_eq_false_iff_not]
    intro hxc
    exact hmem (List.mem_map.mpr ⟨x, hx, hxc⟩)
  simp [incrementalFor, orNull, hc, hnone]

theorem incrementalFor_last (ms : List Message) (h : ms ≠ [])
    (hnd : (ms.map Message.id).Nodup) (hid : (ms.getLast h).id ≠ "") :
    incrementalFor ms (some ((ms.getLast h).id)) = [] := by
  set a := ms.getLast h with ha
  have hsplit : ms.dropLast ++ [a] = ms := List.dropLast_append_getLast h
  have hnotmem : a.id ∉ ms.dropLast.map Message.id := by
    intro hmem
    rw [← hsplit, List.map_append, List.nodup_append] at hnd
    simp only [List.map_cons, List.map_nil] at hnd
    exact hnd.2.2 hmem (by simp)
  have h1 : ms.dropLast.findIdx? (fun msg => msg.id = a.id) = none := by
    rw [List.findIdx?_eq_none_iff]
    intro x hx
    simp only [decide_eq_false_iff_not]
    intro hxa
    exact hnotmem (List.mem_map.mpr ⟨x, hx, hxa⟩)
  have hfind : ms.findIdx? (fun msg => msg.id = a.id) = some ms.dropLast.length := by
    conv_lhs => rw [← hsplit]
    rw [List.findIdx?_append, h1]
    simp [List.findIdx?]
  have horNull : orNull (some a.id) = some a.id := by simp [orNull, hid]
  simp only [incrementalFor, horNull, hfind]
  apply List.drop_eq_nil_of_le
  have hlen : ms.length = ms.dropLast.length + 1 := by
    conv_lhs => rw [← hsplit]
    simp
  omega

/-- C3: the incremental fetch of src/unnamed/part_000 reads only today's
partition; a cursor equal to the last message's id (with ids distinct and
nonempty, as the id construction guarantees) yields the empty sequence, an
absent cursor yields the full partition, and an unknown cursor id also
yields the full partition (cursor-not-found is not an error). -/
theorem fetchIncremental_cursor_spec (store : Store) (now : Nat) (roomId : String)
    (ms : List Message) (hms : store.messages roomId (dayOf now) = ms) :
    (∀ h : ms ≠ [], (ms.map Message.id).Nodup → (ms.getLast h).id ≠ "" →
      getMessagesIncremental store now [roomId] (fun _ => some ((ms.getLast h).id)) =
        [(roomId, [])]) ∧
    getMessagesIncremental store now [roomId] (fun _ => none) = [(roomId, ms)] ∧
    (∀ c : String, c ≠ "" → c ∉ ms.map Message.id →
      getMessagesIncremental store now [roomId] (fun _ => some c) = [(roomId, ms)]) := by
  refine ⟨?_, ?_, ?_⟩
  · intro h hnd hid
    simp [getMessagesIncremental, hms, incrementalFor_last ms h hnd hid]
  · simp [getMessagesIncremental, hms, incrementalFor, orNull]
  · intro c hc hmem
    simp [getMessagesIncremental, hms, incrementalFor_not_found ms c hc hmem]

/-- A one-message store used to instantiate the fetch theorems. -/
def sampleMsg : Message :=
  { id := "u_1_a", from_ := "u", to_ := none, roomId := "r", message := "hi", time := 1 }

/-- Store holding `sampleMsg` in room `r` on day 0. -/
def sampleStore : Store :=
  { emptyStore with messages := fun k d => if k = "r" ∧ d = 0 then [sampleMsg] else [] }

/-- C3 witness: the cursor behaviours evaluated on the concrete one-message
store. -/
theorem fetchIncremental_cursor_spec_witness :
    getMessagesIncremental sampleStore 5 ["r"] (fun _ => some "u_1_a") = [("r", [])] ∧
    getMessagesIncremental sampleStore 5 ["r"] (fun _ => none) = [("r", [sampleMsg])] ∧
    getMessagesIncremental sampleStore 5 ["r"] (fun _ => some "zz") = [("r", [sampleMsg])] := by
  have h := fetchIncremental_cursor_spec sampleStore 5 "r" [sampleMsg] (by decide)
  refine ⟨?_, h.2.1, h.2.2 "zz" (by decide) (by decide)⟩
  have h1 := h.1 (by decide) (by decide) (by decide)
  simpa [sampleMsg] using h1

/-! Helper lemmas about the window sort. -/

theorem timeLe_trans : ∀ a b c : Message,
    timeLe a b = true → timeLe b c = true → timeLe a c = true := by
  intro a b c hab hbc
  simp only [timeLe, decide_eq_true_eq] at hab hbc ⊢
  omega

theorem timeLe_total : ∀ a b : Message, (timeLe a b || timeLe b a) = true := by
  intro a b
  simp only [timeLe, Bool.or_eq_true, decide_eq_true_eq]
  omega

/-- C4: the window fetch of src/worker.js lines 187-202 returns the last 200
entries of the stable sort (by `time`) of the concatenation of the last 7
day-partitions; the output is non-decreasing in `time`, never longer than
200, the sort is a permutation of the concatenation, and (whenever `now` is
at least 6 days past the epoch, so the subtraction does not clamp) the
partitions read are exactly today's back to 6 days ago. -/
theorem fetchWindow_sorted_bounded (store : Store) (now : Nat) (roomId : String) :
    List.Pairwise (fun a b : Message => a.time ≤ b.time) (fetchWindow store now roomId) ∧
    (fetchWindow store now roomId).length ≤ 200 ∧
    fetchWindow store now roomId =
      sliceLast 200 ((windowMessages store now roomId).mergeSort timeLe) ∧
    ((windowMessages store now roomId).mergeSort timeLe).Perm (windowMessages store now roomId) ∧
    (6 * 86400000 ≤ now →
      windowMessages store now roomId =
        (List.range 7).flatMap fun i => store.messages roomId (dayOf now - i)) := by
  refine ⟨?_, sliceLast_length_le _ _, rfl, List.mergeSort_perm _ _, ?_⟩
  · have hsorted := List.sorted_mergeSort timeLe_trans timeLe_total (windowMessages store now roomId)
    have h2 : List.Pairwise (fun a b : Message => a.time ≤ b.time)
        ((windowMessages store now roomId).mergeSort timeLe) :=
      hsorted.imp (by intro a b hab; simpa [timeLe] using hab)
    exact List.Pairwise.sublist (List.drop_sublist _ _) h2
  · intro hnow
    have hday : ∀ i : Nat, i ≤ 6 → dayOf (now - i * 86400000) = dayOf now - i := by
      intro i hi
      unfold dayOf
      rw [Nat.mul_comm]
      apply Nat.sub_mul_div
      calc 86400000 * i ≤ 86400000 * 6 := Nat.mul_le_mul_left _ hi
        _ ≤ now := by omega
    unfold windowMessages
    rw [show List.range 7 = [0, 1, 2, 3, 4, 5, 6] from rfl]
    simp only [List.flatMap_cons, List.flatMap_nil, List.append_nil]
    rw [hday 0 (by omega), hday 1 (by omega), hday 2 (by omega), hday 3 (by omega),
      hday 4 (by omega), hday 5 (by omega), hday 6 (by omega)]

/-- C4 witness: the window fetch evaluated at a concrete time at least 6
days past the epoch. -/
theorem fetchWindow_sorted_bounded_witness :
    List.Pairwise (fun a b : Message => a.time ≤ b.time)
      (fetchWindow emptyStore 518400000 "public") ∧
    windowMessages emptyStore 518400000 "public" =
      (List.range 7).flatMap (fun i => emptyStore.messages "public" (dayOf 518400000 - i)) := by
  have h := fetchWindow_sorted_bounded emptyStore 518400000 "public"
  exact ⟨h.1, h.2.2.2.2 (by omega)⟩

/-- The store produced by the success branch of the `/api/send` handler,
spelled out so theorems can talk about its components; it repeats the
handler's own steps verbatim. -/
def sendSuccessStore (store : Store) (now : Nat) (rand : String) (req : SendReq)
    (f m : String) : Store :=
  let store1 : Store := { store with active := putKey store.active f (some (toString now, 300)) }
  let newMessage := mkMessage f m req.to_ req.roomId now rand
  let messageKey := orDefault req.roomId "public"
  let day := dayOf now
  let existingMessages := store1.messages messageKey day
  let trimmedMessages := appendTrim existingMessages newMessage
  let store2 : Store := { store1 with messages := putMsgs store1.messages messageKey day trimmedMessages }
  match orNull req.to_ with
  | some t =>
    if t ≠ f then
      let roomKey := getRoomKey f t
      let roomInfo := upsertRoom (store2.rooms roomKey) f t m now
      { store2 with rooms := putKey store2.rooms roomKey (some roomInfo) }
    else store2
  | none => store2

theorem sendHandler_eq_ok (store : Store) (now : Nat) (rand : String) (req : SendReq)
    (f m : String) (hf : req.from_ = some f) (hm : req.message = some m)
    (hfne : f ≠ "") (hmne : m ≠ "") (v : String × Nat) (hv : store.active f = some v) :
    sendHandler store now rand req =
      (sendSuccessStore store now rand req f m,
        .ok (mkMessage f m req.to_ req.roomId now rand).id) := by
  obtain ⟨rf, rm, rto, rroom⟩ := req
  replace hf : rf = some f := hf
  replace hm : rm = some m := hm
  subst hf; subst hm
  have h0 : ¬(f = "" ∨ m = "") := by simp [hfne, hmne]
  simp only [sendHandler, sendSuccessStore, hv, if_neg h0]

theorem sendSuccessStore_active (store : Store) (now : Nat) (rand : String) (req : SendReq)
    (f m : String) :
    (sendSuccessStore store now rand req f m).active =
      putKey store.active f (some (toString now, 300)) := by
  simp only [sendSuccessStore]
  cases horNull : orNull req.to_ with
  | none => rfl
  | some t =>
    by_cases htf : t ≠ f
    · simp [htf]
    · simp [htf]

theorem sendSuccessStore_messages (store : Store) (now : Nat) (rand : String) (req : SendReq)
    (f m : String) :
    (sendSuccessStore store now rand req f m).messages =
      putMsgs store.messages (orDefault req.roomId "public") (dayOf now)
        (appendTrim (store.messages (orDefault req.roomId "public") (dayOf now))
          (mkMessage f m req.to_ req.roomId now rand)) := by
  simp only [sendSuccessStore]
  cases horNull : orNull req.to_ with
  | none => rfl
  | some t =>
    by_cases htf : t ≠ f
    · simp [htf]
    · simp [htf]

theorem sendSuccessStore_users (store : Store) (now : Nat) (rand : String) (req : SendReq)
    (f m : String) :
    (sendSuccessStore store now rand req f m).users = store.users := by
  simp only [sendSuccessStore]
  cases horNull : orNull req.to_ with
  | none => rfl
  | some t =>
    by_cases htf : t ≠ f
    · simp [htf]
    · simp [htf]

theorem sendSuccessStore_rooms_private (store : Store) (now : Nat) (rand : String)
    (req : SendReq) (f m t : String) (hto : orNull req.to_ = some t) (htf : t ≠ f) :
    (sendSuccessStore store now rand req f m).rooms =
      putKey store.rooms (getRoomKey f t)
        (some (upsertRoom (store.rooms (getRoomKey f t)) f t m now)) := by
  simp only [sendSuccessStore, hto]
  simp [htf]

theorem sendSuccessStore_rooms_none (store : Store) (now : Nat) (rand : String)
    (req : SendReq) (f m : String) (hto : orNull req.to_ = none) :
    (sendSuccessStore store now rand req f m).rooms = store.rooms := by
  simp only [sendSuccessStore, hto]

/-- C5: a send whose sender has no `active:` presence key is rejected with
status 403 and the store is returned unchanged (no message appended, no room
record written); when the sender is active, the presence key is refreshed to
the pair `(now, TTL 300)` and the message is appended (with FIFO trimming)
to the target partition, reporting the new message id. -/
theorem send_presence_gate (store : Store) (now : Nat) (rand : String) (req : SendReq)
    (f m : String) (hf : req.from_ = some f) (hm : req.message = some m)
    (hfne : f ≠ "") (hmne : m ≠ "") :
    (store.active f = none →
      sendHandler store now rand req = (store, .err 403 "用户未登录")) ∧
    (∀ v, store.active f = some v →
      (sendHandler store now rand req).1.active f = some (toString now, 300) ∧
      (sendHandler store now rand req).1.messages (orDefault req.roomId "public") (dayOf now) =
        appendTrim (store.messages (orDefault req.roomId "public") (dayOf now))
          (mkMessage f m req.to_ req.roomId now rand) ∧
      (sendHandler store now rand req).2 =
        .ok (mkMessage f m req.to_ req.roomId now rand).id) := by
  constructor
  · intro hnone
    obtain ⟨rf, rm, rto, rroom⟩ := req
    replace hf : rf = some f := hf
    replace hm : rm = some m := hm
    subst hf; subst hm
    have h0 : ¬(f = "" ∨ m = "") := by simp [hfne, hmne]
    simp only [sendHandler, hnone, if_neg h0]
  · intro v hv
    rw [sendHandler_eq_ok store now rand req f m hf hm hfne hmne v hv]
    refine ⟨?_, ?_, rfl⟩
    · rw [sendSuccessStore_active]
      simp [putKey]
    · rw [sendSuccessStore_messages]
      simp [putMsgs]

/-- Store with only `alice` holding an `active:` presence key. -/
def activeStore : Store :=
  { emptyStore with active := fun k => if k = "alice" then some ("0", 300) else none }

/-- C5 witness: an inactive sender is rejected on the empty store, and an
active sender's presence key is refreshed on `activeStore`. -/
theorem send_presence_gate_witness :
    sendHandler emptyStore 0 "x"
        { from_ := some "alice", message := some "hi", to_ := none, roomId := none } =
      (emptyStore, .err 403 "用户未登录") ∧
    (sendHandler activeStore 7 "x"
        { from_ := some "alice", message := some "hi", to_ := none, roomId := none }).1.active
        "alice" = some (toString 7, 300) := by
  have h1 := send_presence_gate emptyStore 0 "x"
    { from_ := some "alice", message := some "hi", to_ := none, roomId := none }
    "alice" "hi" rfl rfl (by decide) (by decide)
  have h2 := send_presence_gate activeStore 7 "x"
    { from_ := some "alice", message := some "hi", to_ := none, roomId := none }
    "alice" "hi" rfl rfl (by decide) (by decide)
  exact ⟨h1.1 rfl, (h2.2 ("0", 300) (by decide)).1⟩

/-- C8: on a private send (truthy `to` distinct from `from`, active sender),
the room record stored under `getRoomKey from to` is exactly the upsert of
the previously stored record: `created` is read from the existing record
when one exists and set to `now` on first creation, while `lastMessage` is
always overwritten with the latest 50-character preview. -/
theorem room_upsert_created_preserved (store : Store) (now : Nat) (rand : String)
    (req : SendReq) (f m t : String) (hf : req.from_ = some f) (hm : req.message = some m)
    (hfne : f ≠ "") (hmne : m ≠ "") (hto : orNull req.to_ = some t) (htf : t ≠ f)
    (v : String × Nat) (hv : store.active f = some v) :
    (sendHandler store now rand req).1.rooms (getRoomKey f t) =
      some (upsertRoom (store.rooms (getRoomKey f t)) f t m now) ∧
    (∀ r, store.rooms (getRoomKey f t) = some r →
      (upsertRoom (store.rooms (getRoomKey f t)) f t m now).created = r.created) ∧
    (store.rooms (getRoomKey f t) = none →
      (upsertRoom (store.rooms (getRoomKey f t)) f t m now).created = now) ∧
    (upsertRoom (store.rooms (getRoomKey f t)) f t m now).lastMessage =
      { content := m.take 50, time := now, from_ := f } := by
  refine ⟨?_, ?_, ?_, ?_⟩
  · rw [sendHandler_eq_ok store now rand req f m hf hm hfne hmne v hv]
    rw [show (sendSuccessStore store now rand req f m, SendResult.ok
        (mkMessage f m req.to_ req.roomId now rand).id).1 = sendSuccessStore store now rand req f m
      from rfl]
    rw [sendSuccessStore_rooms_private store now rand req f m t hto htf]
    simp [putKey]
  · intro r hr
    simp [upsertRoom, hr]
  · intro hr
    simp [upsertRoom, hr]
  · cases hr : store.rooms (getRoomKey f t) <;> simp [upsertRoom, hr]

/-- Existing private room of `alice` and `bob`, created at time 1. -/
def room0 : RoomInfo :=
  { id := "alice_bob", participants := ["alice", "bob"],
    lastMessage := { content := "old", time := 1, from_ := "bob" }, created := 1 }

/-- Store with `alice` active and the `alice_bob` room already present. -/
def roomStore : Store :=
  { emptyStore with
    active := fun k => if k = "alice" then some ("0", 300) else none
    rooms := fun k => if k = "alice_bob" then some room0 else none }

/-- C8 witness: on a later private send the upsert keeps the original
`created := 1` and rewrites `lastMessage` to the new preview. -/
theorem room_upsert_created_preserved_witness :
    (upsertRoom (roomStore.rooms (getRoomKey "alice" "bob")) "alice" "bob" "hi" 99).created = 1 ∧
    (upsertRoom (roomStore.rooms (getRoomKey "alice" "bob")) "alice" "bob" "hi" 99).lastMessage =
      { content := ("hi" : String).take 50, time := 99, from_ := "alice" } := by
  have h := room_upsert_created_preserved roomStore 99 "x"
    { from_ := some "alice", message := some "hi", to_ := some "bob", roomId := none }
    "alice" "hi" "bob" rfl rfl (by decide) (by decide) (by decide) (by decide)
    ("0", 300) (by decide)
  exact ⟨h.2.1 room0 (by decide), h.2.2.2⟩

/-- C10: in the first draft the partition key of a send is computed solely
from the client-supplied `roomId` body field (defaulting to the public
room), independently of `from` and `to`: every partition other than
`(roomId || 'public', today)` is untouched; in particular a private send
with `to` set and no `roomId` appends its message (whose `roomId` field is
`public`) to the public partition while still writing the private room
record under `getRoomKey(from, to)`. -/
theorem partition_key_from_roomId_only (store : Store) (now : Nat) (rand : String)
    (req : SendReq) (f m : String) (hf : req.from_ = some f) (hm : req.message = some m)
    (hfne : f ≠ "") (hmne : m ≠ "") (v : String × Nat) (hv : store.active f = some v) :
    (∀ k d, ¬(k = orDefault req.roomId "public" ∧ d = dayOf now) →
      (sendHandler store now rand req).1.messages k d = store.messages k d) ∧
    (sendHandler store now rand req).1.messages (orDefault req.roomId "public") (dayOf now) =
      appendTrim (store.messages (orDefault req.roomId "public") (dayOf now))
        (mkMessage f m req.to_ req.roomId now rand) ∧
    (∀ t, orNull req.to_ = some t → t ≠ f → req.roomId = none →
      (mkMessage f m req.to_ req.roomId now rand).roomId = "public" ∧
      (sendHandler store now rand req).1.messages "public" (dayOf now) =
        appendTrim (store.messages "public" (dayOf now))
          (mkMessage f m req.to_ req.roomId now rand) ∧
      (sendHandler store now rand req).1.rooms (getRoomKey f t) =
        some (upsertRoom (store.rooms (getRoomKey f t)) f t m now)) := by
  have heq := sendHandler_eq_ok store now rand req f m hf hm hfne hmne v hv
  refine ⟨?_, ?_, ?_⟩
  · intro k d hkd
    rw [heq]
    rw [show (sendSuccessStore store now rand req f m, SendResult.ok
        (mkMessage f m req.to_ req.roomId now rand).id).1 = sendSuccessStore store now rand req f m
      from rfl]
    rw [sendSuccessStore_messages]
    simp [putMsgs, hkd]
  · rw [heq]
    rw [show (sendSuccessStore store now rand req f m, SendResult.ok
        (mkMessage f m req.to_ req.roomId now rand).id).1 = sendSuccessStore store now rand req f m
      from rfl]
    rw [sendSuccessStore_messages]
    simp [putMsgs]
  · intro t hto htf hroom
    refine ⟨by simp [mkMessage, hroom, orDefault], ?_, ?_⟩
    · rw [heq]
      rw [show (sendSuccessStore store now rand req f m, SendResult.ok
          (mkMessage f m req.to_ req.roomId now rand).id).1 = sendSuccessStore store now rand req f m
        from rfl]
      rw [sendSuccessStore_messages]
      simp [putMsgs, hroom, orDefault]
    · rw [heq]
      rw [show (sendSuccessStore store now rand req f m, SendResult.ok
          (mkMessage f m req.to_ req.roomId now rand).id).1 = sendSuccessStore store now rand req f m
        from rfl]
      rw [sendSuccessStore_rooms_private store now rand req f m t hto htf]
      simp [putKey]

/-- C10 witness: on `activeStore`, a private send with no `roomId` leaves an
unrelated partition untouched and produces a message bound for the public
room. -/
theorem partition_key_from_roomId_only_witness :
    (sendHandler activeStore 0 "x"
        { from_ := some "alice", message := some "hi", to_ := some "bob", roomId := none }).1.messages
        "other" 0 = activeStore.messages "other" 0 ∧
    (mkMessage "alice" "hi" (some "bob") none 0 "x").roomId = "public" := by
  have h := partition_key_from_roomId_only activeStore 0 "x"
    { from_ := some "alice", message := some "hi", to_ := some "bob", roomId := none }
    "alice" "hi" rfl rfl (by decide) (by decide) ("0", 300) (by decide)
  exact ⟨h.1 "other" 0 (by decide), (h.2.2 "bob" (by decide) (by decide) rfl).1⟩

/-- The private room record of `alice` and `carol` used in the access-control
scenario. -/
def privRoom : RoomInfo :=
  { id := "alice_carol", participants := ["alice", "carol"],
    lastMessage := { content := "secret", time := 9, from_ := "alice" }, created := 9 }

/-- A message inside the private room of `alice` and `carol`. -/
def secretMsg : Message :=
  { id := "alice_9_zz", from_ := "alice", to_ := some "carol",
    roomId := "alice_carol", message := "secret", time := 9 }

/-- Store with the populated private room of `alice` and `carol`. -/
def privStore : Store :=
  { emptyStore with
    rooms := fun k => if k = "alice_carol" then some privRoom else none
    messages := fun k d => if k = "alice_carol" ∧ d = 0 then [secretMsg] else [] }

/-- C2 counterexample: the cursor-based fetch path of src/unnamed/part_000
performs no membership check at all — the handler receives no caller
identity, so a request on behalf of `bob` (not a participant of the
`alice`/`carol` room) is not rejected with 403 and receives the room's
messages. -/
theorem fetch_access_counterexample :
    "bob" ∉ privRoom.participants ∧
    getMessagesIncremental privStore 9 ["alice_carol"] (fun _ => none) =
      [("alice_carol", [secretMsg])] ∧
    ([secretMsg] : List Message) ≠ [] := by decide

/-- C2 amended: the window-based fetch path (src/worker.js first draft)
rejects a non-member fetch of a private room with 403 and returns no
messages, and requires no membership check for the public room; the
cursor-based incremental path takes no caller identity and returns today's
partitions unconditionally. -/
theorem fetch_access_control (store : Store) (now : Nat) (u roomId : String)
    (hu : u ≠ "") (hroom : roomId ≠ "public") (hne : roomId ≠ "") :
    ((store.rooms roomId = none ∨
        ∃ info, store.rooms roomId = some info ∧ u ∉ info.participants) →
      getMessagesHandler store now (some u) (some roomId) = .error (403, "无权访问该房间")) ∧
    (∀ u2 : String, u2 ≠ "" →
      getMessagesHandler store now (some u2) (some "public") =
        .ok (fetchWindow store now "public")) ∧
    (∀ rid : String, getMessagesIncremental store now [rid] (fun _ => none) =
      [(rid, store.messages rid (dayOf now))]) := by
  refine ⟨?_, ?_, ?_⟩
  · intro hcase
    have h1 : orDefault (some roomId) "public" = roomId := by simp [orDefault, hne]
    have h2 : orNull (some u) = some u := by simp [orNull, hu]
    rcases hcase with hnone | ⟨info, hinfo, hmem⟩
    · simp [getMessagesHandler, h1, h2, hroom, hnone]
    · simp [getMessagesHandler, h1, h2, hroom, hinfo, hmem]
  · intro u2 hu2
    have h2 : orNull (some u2) = some u2 := by simp [orNull, hu2]
    simp [getMessagesHandler, orDefault, h2]
  · intro rid
    simp [getMessagesIncremental, incrementalFor, orNull]

/-- C2 witness: on the populated private store, the window path rejects
`bob` with 403 while the incremental path hands out the partition. -/
theorem fetch_access_control_witness :
    getMessagesHandler privStore 9 (some "bob") (some "alice_carol") =
      .error (403, "无权访问该房间") ∧
    getMessagesIncremental privStore 9 ["alice_carol"] (fun _ => none) =
      [("alice_carol", privStore.messages "alice_carol" (dayOf 9))] := by
  have h := fetch_access_control privStore 9 "bob" "alice_carol"
    (by decide) (by decide) (by decide)
  exact ⟨h.1 (Or.inr ⟨privRoom, by decide, by decide⟩), h.2.2 "alice_carol"⟩

theorem loginHandler_active_unchanged (store : Store) (now : Nat)
    (username password : Option String) :
    (loginHandler store now username password).1.active = store.active := by
  unfold loginHandler
  rcases username with _ | u
  · rfl
  rcases password with _ | p
  · rfl
  dsimp only
  split
  · rfl
  · split
    · rfl
    · split
      · rfl
      · rfl

/-- Store where `alice` is registered (password `pw`) but holds no presence
key. -/
def regStore : Store :=
  { emptyStore with
    users := fun k =>
      if k = "alice" then some { password := "pw", created := 0, lastActive := 0 } else none }

/-- C9 counterexample: in the first draft a successful login does not create
the presence key: `alice` logs in successfully on `regStore`, yet
`active:alice` is still absent afterwards, so she is not active immediately
after login. -/
theorem login_no_presence_counterexample :
    (loginHandler regStore 100 (some "alice") (some "pw")).2 = .ok ∧
    (loginHandler regStore 100 (some "alice") (some "pw")).1.active "alice" = none := by decide

/-- C9 amended: in the first draft, login (successful or not) never touches
the `active:` presence family — presence there is created by `/api/active`
and refreshed with TTL 300 on every successful send; only the second
draft's `/api/auth` writes the presence (`status:`) key on successful
login, with value `online` and TTL 300. -/
theorem presence_lifecycle (store : Store) (now : Nat) (u p : String) :
    ((loginHandler store now (some u) (some p)).1.active = store.active) ∧
    (u ≠ "" → p ≠ "" → ∀ (hash : String → String) (store2 : Store2) storedHash,
      store2.users u = some storedHash → hash p = storedHash →
      (authHandler hash store2 (some u) (some p)).1.status u = some ("online", 300) ∧
      (authHandler hash store2 (some u) (some p)).2 = .okLogin) ∧
    (∀ (rand : String) (req : SendReq) f m v, req.from_ = some f → req.message = some m →
      f ≠ "" → m ≠ "" → store.active f = some v →
      (sendHandler store now rand req).1.active f = some (toString now, 300)) := by
  refine ⟨loginHandler_active_unchanged store now (some u) (some p), ?_, ?_⟩
  · intro hu hp hash store2 storedHash hstored hhash
    simp [authHandler, hu, hp, hstored, hhash, putKey]
  · intro rand req f m v hf hm hfne hmne hv
    rw [sendHandler_eq_ok store now rand req f m hf hm hfne hmne v hv]
    rw [show (sendSuccessStore store now rand req f m, SendResult.ok
        (mkMessage f m req.to_ req.roomId now rand).id).1 = sendSuccessStore store now rand req f m
      from rfl]
    rw [sendSuccessStore_active]
    simp [putKey]

/-- Second-draft store where `alice` is registered with stored hash `pw`. -/
def authStore : Store2 :=
  { users := fun k => if k = "alice" then some "pw" else none, status := fun _ => none }

/-- C9 witness: login on the first draft leaves the presence family
unchanged, while the second draft's auth login writes the status key. -/
theorem presence_lifecycle_witness :
    ((loginHandler regStore 100 (some "alice") (some "pw")).1.active = regStore.active) ∧
    (authHandler id authStore (some "alice") (some "pw")).1.status "alice" =
      some ("online", 300) := by
  have h := presence_lifecycle regStore 100 "alice" "pw"
  exact ⟨h.1, (h.2.1 (by decide) (by decide) id authStore "pw" (by decide) rfl).1⟩
